import Mathlib

/-!
Verification of the natural-language specification of LLDB's
`CompileUnit` (lldb/source/Symbol/CompileUnit.cpp) against the code,
via a shallow embedding in Lean 4.

The embedding covers:
* the lazy debug-info cache (GetLanguage, GetLineTable, SetLineTable,
  GetDebugMacros, GetImportedModules, GetSupportFiles) as an explicit
  state machine, instrumented to record which backend parse calls run;
* the function registry (AddFunction, ForeachFunction, FindFunction);
* the symbol-context resolver (ResolveSymbolContext) including the
  inline call-site fallback (the `examine_block` recursion) and the
  forward line-table scan.

Collaborators that are not part of the repository source (the line
table's search primitive, `FileSpec::Match`, `Declaration::
FileAndLineEqual`, `SupportFileList::FindCompatibleIndex`, address
resolution, and constant definitions from headers) are modelled from
the specification and marked as such in their doc comments.  Address
resolution (`Address::CalculateSymbolContext` and
`Address::CalculateSymbolContextFunction`) is a pluggable oracle,
passed as an environment parameter.
-/

namespace LLDB

/-- Address in the binary, as a file address (`lldb::addr_t`). -/
abbrev Addr := Nat

/-- Address range: base file address and byte size (`AddressRange`). -/
structure AddrRange where
  base : Addr
  size : Nat
deriving DecidableEq, Repr

/-- Modelled from the spec: a source path split into a directory part and
a basename (`FileSpec`, declared in a header that is not part of the
sources).  An empty directory string models an absent directory
component. -/
structure FileSpec where
  directory : String
  filename : String
deriving DecidableEq, Repr

/-- Modelled from the spec: `FileSpec::Match(pattern, file)` — "path
match; if the query's file has no directory component, compare
basenames only" (spec section 4.3 step 1). -/
def fileSpecMatch (pattern file : FileSpec) : Bool :=
  if pattern.directory = "" then pattern.filename == file.filename
  else pattern == file

/-- Source declaration site: file, line and column (`Declaration`). -/
structure Declaration where
  file : FileSpec
  line : Nat
  column : Nat
deriving DecidableEq, Repr

/-- Modelled from the spec: `Declaration::FileAndLineEqual(decl, false)`
compares the files (loosely: a side with no directory compares by
basename) and the line numbers; the column is deliberately not
compared (spec: the call-site declaration must match the query's
(file, line) exactly; the column is checked separately). -/
def declFileAndLineEqual (a b : Declaration) : Bool :=
  (if a.file.directory = "" ∨ b.file.directory = "" then
     a.file.filename == b.file.filename
   else a.file == b.file) && a.line == b.line

/-- Modelled from the spec: `LLDB_INVALID_LINE_NUMBER` (UINT32_MAX, from
lldb-defines.h, not under the sources). -/
def INVALID_LINE : Nat := 4294967295

/-- Modelled from the spec: `LLDB_INVALID_COLUMN_NUMBER` (0; the code
relies on this by testing `column_num != 0`). -/
def INVALID_COLUMN : Nat := 0

/-- Modelled from the spec: the `eSymbolContextLineEntry` bit of the
`SymbolContextItem` bitmask (1 << 5, from lldb-enumerations.h).  A
resolve scope is a `Nat` used as a bitmask. -/
def eSymbolContextLineEntry : Nat := 32

/-- One row of a line table (`LineEntry`): address range, support-file
index, resolved file, line, column and a validity flag.  The validity
flag models `LineEntry::IsValid()`. -/
structure LineEntry where
  range : AddrRange
  fileIdx : Nat
  file : FileSpec
  line : Nat
  column : Nat
  isValid : Bool
deriving DecidableEq, Repr

/-- Default-constructed (invalid) line entry, as left by a failed line
table search. -/
def invalidLineEntry : LineEntry :=
  { range := ⟨0, 0⟩, fileIdx := 0, file := ⟨"", ""⟩,
    line := INVALID_LINE, column := 0, isValid := false }

/-- Symbol context (`SymbolContext`): the composite reference produced
by resolution.  Target, module, compile unit, function, block and
symbol are modelled by their numeric identities (absent = `none`),
the line entry is carried in full. -/
structure SymbolContext where
  target : Option Nat
  module : Option Nat
  compUnit : Option Nat
  function : Option Nat
  block : Option Nat
  symbol : Option Nat
  lineEntry : LineEntry
deriving DecidableEq, Repr

/-- Source location query (`SourceLocationSpec`): file, optional line,
optional column, `check_inlines` and `exact` flags. -/
structure SourceLocationSpec where
  fileSpec : FileSpec
  line : Option Nat
  column : Option Nat
  checkInlines : Bool
  exactMatch : Bool
deriving DecidableEq, Repr

/-- Block of a function's block tree (`Block`).  `inlineInfo` carries
the call-site declaration when the block represents an inlined call
(`InlineFunctionInfo::GetCallSite`); `startAddress` models the
fallible `Block::GetStartAddress`; `range0` models the fallible
`Block::GetRangeAtIndex(0, _)`; `childBlocks` are the blocks reached
from `GetFirstChild`/`GetSibling`. -/
inductive Block where
  | mk (inlineInfo : Option Declaration) (startAddress : Option Addr)
       (range0 : Option AddrRange) (childBlocks : List Block)
deriving Repr

/-- Call-site declaration of a block, when it is an inlined call. -/
def Block.inlineInfo : Block → Option Declaration
  | .mk i _ _ _ => i

/-- Start address of a block, when obtainable. -/
def Block.startAddress : Block → Option Addr
  | .mk _ a _ _ => a

/-- First address range of a block, when obtainable. -/
def Block.range0 : Block → Option AddrRange
  | .mk _ _ r _ => r

/-- Child blocks of a block, in sibling order. -/
def Block.childBlocks : Block → List Block
  | .mk _ _ _ cs => cs

/-- Function record (`Function`): numeric id and the root block of its
block tree (`Function::GetBlock(true)`). -/
structure Func where
  id : Nat
  block : Block
deriving Repr

/-- Address-resolution oracle: the external collaborators
`Address::CalculateSymbolContext(&sc, resolve_scope)` and
`Address::CalculateSymbolContextFunction()`, out of scope for this
repository and therefore parameters of the resolver. -/
structure Env where
  calcSymbolContext : Addr → Nat → SymbolContext
  calcFunction : Addr → Option Func

/-- Backend provider (`SymbolFile`), modelled by the values its parse
entry points produce for this compile unit.  `parseLineTable = none`
models a `ParseLineTable` call that never invokes the setter;
`parseFunctions` is the list of functions `ParseFunctions` registers,
in registration order. -/
structure SymbolFileModel where
  parseLanguage : Nat
  parseLineTable : Option (List LineEntry)
  parseDebugMacros : Option Nat
  parseImportedModules : List Nat
  parseSupportFiles : List FileSpec
  parseFunctions : List Func

/-- Per-field lazy-state flags of a compile unit (the `m_flags` bits
`flagsParsedLanguage`, `flagsParsedLineTable`, `flagsParsedDebugMacros`,
`flagsParsedImportedModules`, `flagsParsedSupportFiles`). -/
structure LazyFlags where
  parsedLanguage : Bool
  parsedLineTable : Bool
  parsedDebugMacros : Bool
  parsedImportedModules : Bool
  parsedSupportFiles : Bool
deriving DecidableEq, Repr

/-- Compile unit state (`CompileUnit`).  Language is a numeric
`LanguageType` code with 0 = `eLanguageTypeUnknown`.  The function
registry `functionsByUid` models `m_functions_by_uid`, which in the
header (not under the sources) is an unordered map
(`llvm::DenseMap<user_id_t, FunctionSP>`) whose iteration order is
unspecified and in particular not sorted by id — `ForeachFunction`
sorts explicitly for that reason.  The model fixes the unspecified
internal order to insertion order. -/
structure CompileUnit where
  id : Nat
  moduleId : Option Nat
  primaryFile : FileSpec
  supportFiles : List FileSpec
  language : Nat
  lineTable : Option (List LineEntry)
  debugMacros : Option Nat
  importedModules : List Nat
  functionsByUid : List (Nat × Func)
  flags : LazyFlags

/-- Constructor (CompileUnit.cpp:29-42): stores the fields and sets
`flagsParsedLanguage` exactly when the language is already known. -/
def mkCompileUnit (id : Nat) (moduleId : Option Nat) (primaryFile : FileSpec)
    (language : Nat) (supportFiles : List FileSpec) : CompileUnit :=
  { id := id, moduleId := moduleId, primaryFile := primaryFile,
    supportFiles := supportFiles, language := language,
    lineTable := none, debugMacros := none, importedModules := [],
    functionsByUid := [],
    flags := { parsedLanguage := language ≠ 0, parsedLineTable := false,
               parsedDebugMacros := false, parsedImportedModules := false,
               parsedSupportFiles := false } }

/-- Setter `CompileUnit::SetLineTable` (CompileUnit.cpp:177-183): a null table
clears the parsed-line-table flag, a non-null table sets it; the old
table is discarded either way. -/
def setLineTable (cu : CompileUnit) (t : Option (List LineEntry)) : CompileUnit :=
  match t with
  | none =>
    { cu with lineTable := none
              flags := { cu.flags with parsedLineTable := false } }
  | some table =>
    { cu with lineTable := some table
              flags := { cu.flags with parsedLineTable := true } }

/-- Accessor `CompileUnit::GetLanguage` (CompileUnit.cpp:155-164).  Returns the
updated state, the language value, and whether `ParseLanguage` was
invoked on the backend. -/
def getLanguage (sf : Option SymbolFileModel) (cu : CompileUnit) :
    CompileUnit × Nat × Bool :=
  if cu.language = 0 then
    if cu.flags.parsedLanguage = false then
      let cu1 := { cu with flags := { cu.flags with parsedLanguage := true } }
      match sf with
      | some f => ({ cu1 with language := f.parseLanguage }, f.parseLanguage, true)
      | none => (cu1, cu1.language, false)
    else (cu, cu.language, false)
  else (cu, cu.language, false)

/-- Accessor `CompileUnit::GetLineTable` (CompileUnit.cpp:166-175).  The backend
`ParseLineTable` call populates the table through `setLineTable` when
it produces one.  Returns the updated state, the table, and whether
`ParseLineTable` was invoked. -/
def getLineTable (sf : Option SymbolFileModel) (cu : CompileUnit) :
    CompileUnit × Option (List LineEntry) × Bool :=
  if cu.lineTable = none then
    if cu.flags.parsedLineTable = false then
      let cu1 := { cu with flags := { cu.flags with parsedLineTable := true } }
      match sf with
      | some f =>
        let cu2 := match f.parseLineTable with
          | some t => setLineTable cu1 (some t)
          | none => cu1
        (cu2, cu2.lineTable, true)
      | none => (cu1, cu1.lineTable, false)
    else (cu, cu.lineTable, false)
  else (cu, cu.lineTable, false)

/-- Accessor `CompileUnit::GetDebugMacros` (CompileUnit.cpp:185-195), with the
backend populating through `SetDebugMacros` when it produces macros. -/
def getDebugMacros (sf : Option SymbolFileModel) (cu : CompileUnit) :
    CompileUnit × Option Nat × Bool :=
  if cu.debugMacros = none then
    if cu.flags.parsedDebugMacros = false then
      let cu1 := { cu with flags := { cu.flags with parsedDebugMacros := true } }
      match sf with
      | some f =>
        let cu2 := match f.parseDebugMacros with
          | some d =>
            { cu1 with debugMacros := some d
                       flags := { cu1.flags with parsedDebugMacros := true } }
          | none => cu1
        (cu2, cu2.debugMacros, true)
      | none => (cu1, cu1.debugMacros, false)
    else (cu, cu.debugMacros, false)
  else (cu, cu.debugMacros, false)

/-- Accessor `CompileUnit::GetImportedModules` (CompileUnit.cpp:507-518): fetch
guarded by the list being empty and the flag being clear. -/
def getImportedModules (sf : Option SymbolFileModel) (cu : CompileUnit) :
    CompileUnit × List Nat × Bool :=
  if cu.importedModules = [] ∧ cu.flags.parsedImportedModules = false then
    let cu1 := { cu with flags := { cu.flags with parsedImportedModules := true } }
    match sf with
    | some f =>
      let cu2 := { cu1 with importedModules := f.parseImportedModules }
      (cu2, cu2.importedModules, true)
    | none => (cu1, cu1.importedModules, false)
  else (cu, cu.importedModules, false)

/-- Accessor `CompileUnit::GetSupportFiles` (CompileUnit.cpp:528-537): fetch
guarded by the list being empty and the flag being clear. -/
def getSupportFiles (sf : Option SymbolFileModel) (cu : CompileUnit) :
    CompileUnit × List FileSpec × Bool :=
  if cu.supportFiles = [] then
    if cu.flags.parsedSupportFiles = false then
      let cu1 := { cu with flags := { cu.flags with parsedSupportFiles := true } }
      match sf with
      | some f =>
        let cu2 := { cu1 with supportFiles := f.parseSupportFiles }
        (cu2, cu2.supportFiles, true)
      | none => (cu1, cu1.supportFiles, false)
    else (cu, cu.supportFiles, false)
  else (cu, cu.supportFiles, false)

/-- Accessor operations of the lazy cache, one per lazily resolved
field. -/
inductive CUOp where
  | language
  | lineTable
  | debugMacros
  | importedModules
  | supportFiles
deriving DecidableEq, Repr

/-- One accessor call: the updated state and, when a backend parse
function was invoked, which field's parse it was. -/
def stepOp (sf : Option SymbolFileModel) (cu : CompileUnit) : CUOp → CompileUnit × Option CUOp
  | .language =>
    let r := getLanguage sf cu
    (r.1, if r.2.2 then some .language else none)
  | .lineTable =>
    let r := getLineTable sf cu
    (r.1, if r.2.2 then some .lineTable else none)
  | .debugMacros =>
    let r := getDebugMacros sf cu
    (r.1, if r.2.2 then some .debugMacros else none)
  | .importedModules =>
    let r := getImportedModules sf cu
    (r.1, if r.2.2 then some .importedModules else none)
  | .supportFiles =>
    let r := getSupportFiles sf cu
    (r.1, if r.2.2 then some .supportFiles else none)

/-- Runs a sequence of accessor calls, collecting the backend parse
invocations in order. -/
def runOps (sf : Option SymbolFileModel) : CompileUnit → List CUOp → CompileUnit × List CUOp
  | cu, [] => (cu, [])
  | cu, op :: ops =>
    let s := stepOp sf cu op
    let r := runOps sf s.1 ops
    (r.1, s.2.toList ++ r.2)

/-- Number of occurrences of one parse kind in an invocation log. -/
def countK (k : CUOp) (l : List CUOp) : Nat :=
  (l.filter (fun x => x = k)).length

/-- Lazy-state flag of the field an accessor operation fetches. -/
def flagOf (cu : CompileUnit) : CUOp → Bool
  | .language => cu.flags.parsedLanguage
  | .lineTable => cu.flags.parsedLineTable
  | .debugMacros => cu.flags.parsedDebugMacros
  | .importedModules => cu.flags.parsedImportedModules
  | .supportFiles => cu.flags.parsedSupportFiles

/-- Registration `CompileUnit::AddFunction` (CompileUnit.cpp:144-146):
`m_functions_by_uid[f.id] = f`, an insert-or-overwrite keyed by the
function's id.  The model keeps the slot position on overwrite and
appends new keys, fixing the map's unspecified internal order to
insertion order. -/
def addFunction (reg : List (Nat × Func)) (f : Func) : List (Nat × Func) :=
  if reg.any (fun p => p.1 = f.id) then
    reg.map (fun p => if p.1 = f.id then (p.1, f) else p)
  else reg ++ [(f.id, f)]

/-- Lookup `CompileUnit::FindFunctionByUID` (CompileUnit.cpp:148-153). -/
def findFunctionByUID (reg : List (Nat × Func)) (uid : Nat) : Option Func :=
  (reg.find? (fun p => p.1 = uid)).map Prod.snd

/-- Strict comparison by function id, the comparator passed to
`llvm::sort` in `ForeachFunction` (CompileUnit.cpp:71-74). -/
def ltById (a b : Func) : Prop := a.id < b.id

/-- Non-strict version of `ltById`, used for sortedness bookkeeping. -/
def leById (a b : Func) : Prop := a.id ≤ b.id

/-- Insertion step of the id-ascending sort. -/
def insertByID (f : Func) : List Func → List Func
  | [] => [f]
  | g :: gs => if f.id < g.id then f :: g :: gs else g :: insertByID f gs

/-- Sort by ascending function id (the `llvm::sort` call in
`ForeachFunction`; ids are unique so any comparison sort computes the
same list, and insertion sort is used here). -/
def sortByID (l : List Func) : List Func := l.foldr insertByID []

/-- Visits the elements of a list in order until the visitor returns
`true`, returning the list of visited elements (the visitation loop of
`ForeachFunction`, CompileUnit.cpp:76-78). -/
def visitUntil (p : Func → Bool) : List Func → List Func
  | [] => []
  | f :: fs => if p f then [f] else f :: visitUntil p fs

/-- Enumeration `CompileUnit::ForeachFunction` (CompileUnit.cpp:65-79): sorts the
registered functions by ascending id, then invokes the visitor in that
order, stopping at the first `true`.  The result is the sequence of
functions the visitor is invoked on. -/
def foreachFunction (reg : List (Nat × Func)) (p : Func → Bool) : List Func :=
  visitUntil p (sortByID (reg.map Prod.snd))

/-- Search `CompileUnit::FindFunction` (CompileUnit.cpp:81-103): bails out with
not-found when the module or its symbol file is unavailable, otherwise
has the backend parse all functions into the registry and returns the
first predicate match in the registry's internal iteration order
(without the sort `ForeachFunction` performs). -/
def findFunction (sf : Option SymbolFileModel) (cu : CompileUnit)
    (p : Func → Bool) : Option Func :=
  match cu.moduleId with
  | none => none
  | some _ =>
    match sf with
    | none => none
    | some f =>
      let reg := f.parseFunctions.foldl addFunction cu.functionsByUid
      (reg.find? (fun pr => p pr.2)).map Prod.snd

/-- Modelled from the spec: the support-file compatibility test of
`SupportFileList::FindCompatibleIndex` (not under the sources) —
"accounting for realpath-prefix normalization"; realpath prefixes are
not modelled, leaving the path-match rule of `FileSpec::Match`. -/
def fileCompatible (file supportFile : FileSpec) : Bool :=
  fileSpecMatch file supportFile

/-- Helper `FindFileIndexes` (CompileUnit.cpp:216-225): all indices of support
files compatible with the given file, in ascending order. -/
def findFileIndexes (files : List FileSpec) (file : FileSpec) : List Nat :=
  (List.range files.length).filter fun i =>
    fileCompatible file (files.getD i ⟨"", ""⟩)

/-- Modelled from the spec: the entry-match predicate of
`LineTable::FindLineEntryIndexByFileIndex` (the line table lives
outside the sources) — the entry's file index must be in the matched
set and its line (and column, when the query carries one and requests
exactness) must satisfy the query's exactness rule: equal when exact,
at or after the requested line otherwise. -/
def lineEntryMatches (fileIndexes : List Nat) (spec : SourceLocationSpec)
    (e : LineEntry) : Bool :=
  e.isValid && fileIndexes.contains e.fileIdx &&
  (match spec.line with
   | none => true
   | some l => if spec.exactMatch then e.line == l else decide (l ≤ e.line)) &&
  (if spec.exactMatch then
     match spec.column with
     | none => true
     | some c => e.column == c
   else true)

/-- Linear search for the first matching entry at or after a start
index, returning the absolute index and the entry. -/
def searchFrom (p : LineEntry → Bool) : List LineEntry → Nat → Option (Nat × LineEntry)
  | [], _ => none
  | e :: es, i => if p e then some (i, e) else searchFrom p es (i + 1)

/-- Modelled from the spec: `LineTable::FindLineEntryIndexByFileIndex`
— "indexed search by single file-index or by a set of file-indices,
given a start position and a Source Location Query, returning a found
index plus the matching entry (or not-found)".  The single-index and
multi-index overloads of the code are both covered by the index-set
form. -/
def findLineEntryIndexByFileIndex (table : List LineEntry) (startIdx : Nat)
    (fileIndexes : List Nat) (spec : SourceLocationSpec) :
    Option (Nat × LineEntry) :=
  searchFrom (lineEntryMatches fileIndexes spec) (table.drop startIdx) startIdx

/-- Front end `CompileUnit::FindLineEntry` (CompileUnit.cpp:227-247): resolves
file-compatible indices for the given file (defaulting to the primary
file), builds a no-column, non-inline query and delegates to the line
table's indexed search. -/
def findLineEntry (cu : CompileUnit) (startIdx : Nat) (line : Nat)
    (fileSpec : Option FileSpec) (exact : Bool) : Option (Nat × LineEntry) :=
  let file := fileSpec.getD cu.primaryFile
  let fileIndexes := findFileIndexes cu.supportFiles file
  if fileIndexes = [] then none
  else
    match cu.lineTable with
    | none => none
    | some table =>
      findLineEntryIndexByFileIndex table startIdx fileIndexes
        { fileSpec := file, line := some line, column := none,
          checkInlines := false, exactMatch := exact }

/-- Body of the call-site check of `examine_block`
(CompileUnit.cpp:357-401) for one parent/child pair: when the child
block carries inline info whose call-site declaration matches the
sought declaration's file and line (and column, when the query gave
one), resolve the parent block's start address, override the resolved
line entry's line and column with the call-site's values, apply the
exact-match filter, set the entry's range to the child block's first
address range, and synthesize the context. -/
def matchChild (env : Env) (q : SourceLocationSpec) (scope : Nat)
    (sought : Declaration) (parent child : Block) : List SymbolContext :=
  match child.inlineInfo with
  | none => []
  | some foundDecl =>
    if declFileAndLineEqual foundDecl sought = true ∧
       (sought.column = INVALID_COLUMN ∨ sought.column = foundDecl.column) then
      match parent.startAddress with
      | none => []
      | some a =>
        let sc := env.calcSymbolContext a scope
        let callSiteLine :=
          { sc.lineEntry with line := foundDecl.line, column := foundDecl.column }
        let matchesSpec : Bool :=
          if q.exactMatch = true then
            decide (q.fileSpec = sc.lineEntry.file ∧
                    q.line = some callSiteLine.line ∧
                    q.column = some callSiteLine.column)
          else true
        if matchesSpec = true then
          match child.range0 with
          | none => []
          | some r =>
            [{ target := sc.target, module := sc.module, compUnit := sc.compUnit,
               function := sc.function, block := sc.block, symbol := sc.symbol,
               lineEntry := { callSiteLine with range := r } }]
        else []
    else []

/-- The sibling loop of `examine_block` (CompileUnit.cpp:348-409): for
each child of `parent` in sibling order, check its call-site
(`matchChild`), then recurse into the child's own children (with the
child as the new parent), then move to the next sibling. -/
def examineSiblings (env : Env) (q : SourceLocationSpec) (scope : Nat)
    (sought : Declaration) : Block → List Block → List SymbolContext
  | _, [] => []
  | parent, c :: rest =>
    matchChild env q scope sought parent c
    ++ examineSiblings env q scope sought c c.childBlocks
    ++ examineSiblings env q scope sought parent rest
termination_by _ l => sizeOf l
decreasing_by
  · have h : sizeOf c.childBlocks < sizeOf c := by
      cases c with
      | mk i a r cs => simp [Block.childBlocks]
    simp
    omega
  · simp

/-- Entry point of `examine_block` applied to a function's root block: scans the root
block's children (the root itself cannot be inlined,
CompileUnit.cpp:411-415). -/
def examineBlock (env : Env) (q : SourceLocationSpec) (scope : Nat)
    (sought : Declaration) (b : Block) : List SymbolContext :=
  examineSiblings env q scope sought b b.childBlocks

/-- Preorder enumeration of (parent, child) pairs of a block tree: each
child is listed, then its whole subtree, then the next sibling. -/
def preorderSiblings : Block → List Block → List (Block × Block)
  | _, [] => []
  | parent, c :: rest =>
    (parent, c) :: (preorderSiblings c c.childBlocks ++ preorderSiblings parent rest)
termination_by _ l => sizeOf l
decreasing_by
  · have h : sizeOf c.childBlocks < sizeOf c := by
      cases c with
      | mk i a r cs => simp [Block.childBlocks]
    simp
    omega
  · simp

/-- Preorder (parent, child) pairs below a root block. -/
def blockPreorder (b : Block) : List (Block × Block) :=
  preorderSiblings b b.childBlocks

/-- Inline call-site fallback of `ResolveSymbolContext`
(CompileUnit.cpp:330-425, up to the early return): guarded by the
found entry being valid, the entry's line/column differing from the
query's, the resolve scope including line entries, and `check_inlines`;
walks the block tree of the function owning the found entry's
address. -/
def inlineContexts (env : Env) (q : SourceLocationSpec) (scope : Nat)
    (lineEntry : LineEntry) : List SymbolContext :=
  let line := q.line.getD INVALID_LINE
  let columnNum := q.column.getD INVALID_COLUMN
  if lineEntry.isValid = true ∧
     (lineEntry.line ≠ line ∨ (columnNum ≠ 0 ∧ lineEntry.column ≠ columnNum)) ∧
     scope &&& eSymbolContextLineEntry ≠ 0 ∧ q.checkInlines = true then
    match env.calcFunction lineEntry.range.base with
    | some fn => examineBlock env q scope ⟨q.fileSpec, line, columnNum⟩ fn.block
    | none => []
  else []

/-- One iteration body of the forward line-table scan
(CompileUnit.cpp:440-481): line-entry-only scope appends the bare
context; otherwise address resolution decides between the fully
resolved context (same compile unit), a diagnostic plus the bare
context (no compile unit but a module), or the bare context silently
(different compile unit, or no module either).  The second component
is the diagnostic: the module it is reported to and the file address
it names. -/
def resolveEntryStep (env : Env) (thisId : Nat) (sc : SymbolContext)
    (entry : LineEntry) (scope : Nat) : SymbolContext × Option (Nat × Addr) :=
  let bare := { sc with lineEntry := entry }
  if scope = eSymbolContextLineEntry then (bare, none)
  else
    let resolved := env.calcSymbolContext entry.range.base scope
    if resolved.compUnit = some thisId then (resolved, none)
    else
      match resolved.compUnit, resolved.module with
      | none, some m => (bare, some (m, entry.range.base))
      | _, _ => (bare, none)

/-- The forward scan loop (CompileUnit.cpp:440-489), with explicit fuel
standing in for the loop's termination argument (the search index
strictly increases and is bounded by the table length, so
`table.length` fuel is always enough).  Accumulates the appended
contexts and the emitted diagnostics in order. -/
def scanLoop (env : Env) (thisId : Nat) (sc : SymbolContext)
    (table : List LineEntry) (fileIndexes : List Nat)
    (foundSpec : SourceLocationSpec) (scope : Nat) :
    Nat → Nat → LineEntry → List SymbolContext × List (Nat × Addr)
  | fuel, idx, entry =>
    let s := resolveEntryStep env thisId sc entry scope
    match fuel, findLineEntryIndexByFileIndex table (idx + 1) fileIndexes foundSpec with
    | fuel' + 1, some (i2, e2) =>
      let r := scanLoop env thisId sc table fileIndexes foundSpec scope fuel' i2 e2
      (s.1 :: r.1, s.2.toList ++ r.2)
    | _, _ => ([s.1], s.2.toList)

/-- Forward line-table scan of `ResolveSymbolContext`
(CompileUnit.cpp:426-489): builds the secondary query from the found
entry's file and line (carrying the found entry's column exactly when
the original query had a column), then repeatedly appends one context
per matching entry, starting from the found index.  When the primary
search found nothing (`found = none`), the loop body never runs. -/
def forwardScanPart (env : Env) (cu : CompileUnit) (q : SourceLocationSpec)
    (scope : Nat) (table : List LineEntry) (fileIndexes : List Nat)
    (sc : SymbolContext) (found : Option (Nat × LineEntry)) :
    List SymbolContext × List (Nat × Addr) :=
  let lineEntry := (found.map Prod.snd).getD invalidLineEntry
  let column2 : Option Nat :=
    if q.column.isSome then some lineEntry.column else none
  let foundSpec : SourceLocationSpec :=
    { fileSpec := lineEntry.file,
      line := if lineEntry.line = INVALID_LINE then none
              else some lineEntry.line,
      column := column2, checkInlines := false, exactMatch := true }
  match found with
  | none => ([], [])
  | some (idx, entry) =>
    scanLoop env cu.id sc table fileIndexes foundSpec scope table.length idx entry

/-- Resolver `CompileUnit::ResolveSymbolContext` (CompileUnit.cpp:249-490).
Inputs: the address-resolution oracle, the compile unit's current
(post-load) state, the query and the resolve scope.  Output: the list
of contexts appended to the caller's result list, and the diagnostics
reported to modules.  The `SetLoadDebugInfoEnabled` signal and the
lazy `GetSupportFiles`/`GetLineTable` fetches are cache side effects
with no bearing on the returned contexts and are represented by the
unit's current state; realpath prefixes are not modelled (see
`fileCompatible`). -/
def resolveSymbolContext (env : Env) (cu : CompileUnit) (q : SourceLocationSpec)
    (scope : Nat) : List SymbolContext × List (Nat × Addr) :=
  let fileSpec := q.fileSpec
  let line := q.line.getD INVALID_LINE
  let fileMatches := fileSpecMatch fileSpec cu.primaryFile
  if fileMatches = false ∧ q.checkInlines = false then ([], [])
  else
    let sc : SymbolContext :=
      { target := none, module := cu.moduleId, compUnit := some cu.id,
        function := none, block := none, symbol := none,
        lineEntry := invalidLineEntry }
    if line = INVALID_LINE then
      (if fileMatches = true ∧ q.checkInlines = false then [sc] else [], [])
    else
      let fileIndexes := findFileIndexes cu.supportFiles fileSpec
      if fileIndexes = [] then ([], [])
      else
        match cu.lineTable with
        | none =>
          (if fileMatches = true ∧ q.checkInlines = false then [sc] else [], [])
        | some table =>
          let found := findLineEntryIndexByFileIndex table 0 fileIndexes q
          let lineEntry := (found.map Prod.snd).getD invalidLineEntry
          let inl := inlineContexts env q scope lineEntry
          if inl = [] then forwardScanPart env cu q scope table fileIndexes sc found
          else (inl, [])

/-!
Concrete data used by witnesses and counterexamples: a compile unit for
`/src/a.c` with a two-entry line table (lines 10 and 20), and a function
covering the second entry whose block tree carries an inline call site
declared at line 15 column 5.
-/

/-- Primary file of the demonstration compile unit. -/
def fMain : FileSpec := ⟨"/src", "a.c"⟩

/-- Line-table entry at address 0x1000 for line 10. -/
def e10 : LineEntry :=
  { range := ⟨4096, 16⟩, fileIdx := 0, file := fMain, line := 10, column := 0,
    isValid := true }

/-- Line-table entry at address 0x1010 for line 20. -/
def e20 : LineEntry :=
  { range := ⟨4112, 16⟩, fileIdx := 0, file := fMain, line := 20, column := 0,
    isValid := true }

/-- Demonstration line table. -/
def tableDemo : List LineEntry := [e10, e20]

/-- Call-site declaration at line 15 column 5 of the primary file. -/
def dCall : Declaration := ⟨fMain, 15, 5⟩

/-- Inlined block carrying the call site, with its own first range. -/
def inlChild : Block := .mk (some dCall) (some 4104) (some ⟨4104, 8⟩) []

/-- Root block of the demonstration function; its first range differs
from the inlined child's. -/
def funcBlock : Block := .mk none (some 4096) (some ⟨4096, 48⟩) [inlChild]

/-- Demonstration function owning the block tree. -/
def fnDemo : Func := ⟨7, funcBlock⟩

/-- Context the oracle resolves for the parent block's start address;
its line entry's range (4096..4112) differs from the inlined child's
first range (4104..4112). -/
def parentSC : SymbolContext :=
  { target := none, module := some 1, compUnit := some 1, function := some 7,
    block := some 70, symbol := some 9,
    lineEntry := { range := ⟨4096, 16⟩, fileIdx := 0, file := fMain, line := 10,
                   column := 0, isValid := true } }

/-- Address-resolution oracle of the demonstration scenario. -/
def envDemo : Env :=
  { calcSymbolContext := fun a _ =>
      if a = 4096 then parentSC
      else { target := none, module := none, compUnit := none, function := none,
             block := none, symbol := none, lineEntry := invalidLineEntry },
    calcFunction := fun a => if a = 4112 then some fnDemo else none }

/-- Demonstration compile unit (post-load state). -/
def cuDemo : CompileUnit :=
  { id := 1, moduleId := some 1, primaryFile := fMain, supportFiles := [fMain],
    language := 12, lineTable := some tableDemo, debugMacros := none,
    importedModules := [], functionsByUid := [],
    flags := ⟨true, true, false, false, false⟩ }

/-- Query for line 15 column 5 with `check_inlines` and non-exact match. -/
def q15 : SourceLocationSpec := ⟨fMain, some 15, some 5, true, false⟩

/-- The synthesized call-site context the demonstration scenario
produces: identity fields from `parentSC`, line entry overridden to
line 15 column 5 with the inlined child block's first range. -/
def ctxDemo : SymbolContext :=
  { target := none, module := some 1, compUnit := some 1, function := some 7,
    block := some 70, symbol := some 9,
    lineEntry := { range := ⟨4104, 8⟩, fileIdx := 0, file := fMain, line := 15,
                   column := 5, isValid := true } }

/-- Bare context `sc` built at the head of the resolver (module and
compile unit of the demonstration unit, nothing else). -/
def scBare : SymbolContext :=
  { target := none, module := some 1, compUnit := some 1, function := none,
    block := none, symbol := none, lineEntry := invalidLineEntry }

/-- Line entry used to exercise the forward-scan diagnostic case. -/
def eC3 : LineEntry :=
  { range := ⟨100, 1⟩, fileIdx := 0, file := fMain, line := 30, column := 0,
    isValid := true }

/-- Oracle whose address resolution finds a module but no compile unit
(total resolution failure). -/
def envC3 : Env :=
  { calcSymbolContext := fun _ _ =>
      { target := none, module := some 9, compUnit := none, function := none,
        block := none, symbol := none, lineEntry := invalidLineEntry },
    calcFunction := fun _ => none }

/-- Depth-2 descendant block of the traversal-order scenario, carrying
the matching call site. -/
def blkG : Block := .mk (some dCall) (some 310) (some ⟨311, 1⟩) []

/-- First root-level child of the traversal-order scenario, carrying
the matching call site and the descendant `blkG`. -/
def blkC1 : Block := .mk (some dCall) (some 300) (some ⟨301, 1⟩) [blkG]

/-- Second root-level child of the traversal-order scenario, carrying
the matching call site. -/
def blkC2 : Block := .mk (some dCall) (some 320) (some ⟨321, 1⟩) []

/-- Root block of the traversal-order scenario. -/
def rootBlock2 : Block := .mk none (some 200) (some ⟨200, 100⟩) [blkC1, blkC2]

/-- Oracle of the traversal-order scenario: resolution at address `a`
produces fixed identities and a line entry whose range starts at `a`. -/
def env2 : Env :=
  { calcSymbolContext := fun a _ =>
      { target := none, module := some 1, compUnit := some 1, function := some 7,
        block := some 70, symbol := some 9,
        lineEntry := { range := ⟨a, 4⟩, fileIdx := 0, file := fMain, line := 10,
                       column := 0, isValid := true } },
    calcFunction := fun _ => none }

/-- Synthesized context of the traversal-order scenario whose line
entry carries the given range. -/
def mkCtx (r : AddrRange) : SymbolContext :=
  { target := none, module := some 1, compUnit := some 1, function := some 7,
    block := some 70, symbol := some 9,
    lineEntry := { range := r, fileIdx := 0, file := fMain, line := 15,
                   column := 5, isValid := true } }

/-- Exact query for line 15 with no column, `check_inlines` on. -/
def q9 : SourceLocationSpec := ⟨fMain, some 15, none, true, true⟩

/-- Characterization of the synthesized call-site context (amended C1):
identity fields taken from resolving the parent block's start address
`a` with the caller's scope, line entry overridden to the call-site
declaration's line and column, and the entry's address range set to
`r`, the matched inlined block's first range. -/
def callSiteContext (env : Env) (scope : Nat) (a : Addr) (d : Declaration)
    (r : AddrRange) : SymbolContext :=
  let sc := env.calcSymbolContext a scope
  { target := sc.target, module := sc.module, compUnit := sc.compUnit,
    function := sc.function, block := sc.block, symbol := sc.symbol,
    lineEntry :=
      { sc.lineEntry with line := d.line, column := d.column, range := r } }

/-- Trivial block used by registry demonstration functions. -/
def b0 : Block := .mk none none none []

/-- Registry demonstration function with id 5. -/
def fReg5 : Func := ⟨5, b0⟩

/-- Registry demonstration function with id 1. -/
def fReg1 : Func := ⟨1, b0⟩

/-- Registry demonstration function with id 3. -/
def fReg3 : Func := ⟨3, b0⟩

/-- Registry built by registering ids 5, 1, 3 in that order. -/
def regDemo : List (Nat × Func) :=
  addFunction (addFunction (addFunction [] fReg5) fReg1) fReg3

/-- Backend model that has nothing further to contribute. -/
def sfDemo : SymbolFileModel :=
  { parseLanguage := 0, parseLineTable := none, parseDebugMacros := none,
    parseImportedModules := [], parseSupportFiles := [], parseFunctions := [] }

/-- Compile unit whose registry already holds the demonstration
functions. -/
def cuReg : CompileUnit :=
  { id := 2, moduleId := some 1, primaryFile := fMain, supportFiles := [fMain],
    language := 0, lineTable := none, debugMacros := none,
    importedModules := [], functionsByUid := regDemo,
    flags := ⟨false, false, false, false, false⟩ }

/-!
Lemmas about the lazy cache's accessor state machine.
-/

/-- Occurrence counts distribute over list append. -/
theorem countK_append (k : CUOp) (a b : List CUOp) :
    countK k (a ++ b) = countK k a + countK k b := by
  simp [countK, List.filter_append]

/-- A backend invocation recorded by a step is tagged with the stepped
operation itself. -/
theorem stepOp_invoke_eq (sf : Option SymbolFileModel) (cu : CompileUnit)
    (op k : CUOp) (h : (stepOp sf cu op).2 = some k) : op = k := by
  cases op <;> simp [stepOp] at h <;> exact h.2

/-- Accessor steps never clear a lazy-state flag. -/
theorem stepOp_flag_mono (sf : Option SymbolFileModel) (cu : CompileUnit)
    (op k : CUOp) (h : flagOf cu k = true) : flagOf (stepOp sf cu op).1 k = true := by
  cases op <;> cases k <;>
    simp [stepOp, getLanguage, getLineTable, getDebugMacros, getImportedModules,
          getSupportFiles, setLineTable, flagOf] <;>
    (repeat' split) <;> simp_all [flagOf, setLineTable]

/-- After a step that invoked the backend for a field, that field's
flag is set. -/
theorem stepOp_invoke_flag (sf : Option SymbolFileModel) (cu : CompileUnit)
    (op k : CUOp) (h : (stepOp sf cu op).2 = some k) :
    flagOf (stepOp sf cu op).1 k = true := by
  have hop := stepOp_invoke_eq sf cu op k h
  subst hop
  cases op <;>
    simp [stepOp, getLanguage, getLineTable, getDebugMacros, getImportedModules,
          getSupportFiles, setLineTable, flagOf] at h ⊢ <;>
    (repeat' split) <;> simp_all [flagOf, setLineTable]

/-- A step never invokes the backend for a field whose flag is already
set. -/
theorem stepOp_no_invoke_of_flag (sf : Option SymbolFileModel) (cu : CompileUnit)
    (op k : CUOp) (hf : flagOf cu k = true) : (stepOp sf cu op).2 ≠ some k := by
  intro h
  have hop := stepOp_invoke_eq sf cu op k h
  subst hop
  cases op <;>
    simp [stepOp, getLanguage, getLineTable, getDebugMacros, getImportedModules,
          getSupportFiles, flagOf] at h hf <;>
    (repeat' split at h) <;> simp_all

/-- Once a field's flag is set, no later accessor call invokes its
backend parse. -/
theorem runOps_count_zero (sf : Option SymbolFileModel) (k : CUOp) :
    ∀ (ops : List CUOp) (cu : CompileUnit), flagOf cu k = true →
      countK k (runOps sf cu ops).2 = 0 := by
  intro ops
  induction ops with
  | nil => intro cu _; simp [runOps, countK]
  | cons op ops ih =>
    intro cu hf
    have hmono := stepOp_flag_mono sf cu op k hf
    have hno := stepOp_no_invoke_of_flag sf cu op k hf
    simp only [runOps, countK_append]
    have h2 : countK k (stepOp sf cu op).2.toList = 0 := by
      cases hinv : (stepOp sf cu op).2 with
      | none => simp [countK]
      | some j =>
        have : j ≠ k := by intro hjk; exact hno (hjk ▸ hinv)
        simp [countK, this]
    rw [h2, ih _ hmono]

/-- C6.  For every lazily resolved field, the backend parse runs at
most once over any sequence of accessor calls, from any starting
state, for any backend (including one that leaves the value empty):
the invocation log never mentions a field twice. -/
theorem lazy_parse_at_most_once (sf : Option SymbolFileModel) (k : CUOp) :
    ∀ (ops : List CUOp) (cu : CompileUnit), countK k (runOps sf cu ops).2 ≤ 1 := by
  intro ops
  induction ops with
  | nil => intro cu; simp [runOps, countK]
  | cons op ops ih =>
    intro cu
    simp only [runOps, countK_append]
    cases hinv : (stepOp sf cu op).2 with
    | none =>
      simpa [countK] using ih (stepOp sf cu op).1
    | some j =>
      by_cases hjk : j = k
      · subst hjk
        have hflag := stepOp_invoke_flag sf cu op j hinv
        have hzero := runOps_count_zero sf j ops (stepOp sf cu op).1 hflag
        rw [hzero]
        simp [countK]
      · simpa [countK, hjk] using ih (stepOp sf cu op).1

/-- C7.  Clearing the line table with a null `SetLineTable` resets the
requested flag: the very next `GetLineTable` invokes `ParseLineTable`
exactly once more, and no later accessor call in the sequence invokes
it again. -/
theorem setLineTable_none_reparses_once (f : SymbolFileModel) (cu : CompileUnit)
    (ops : List CUOp) :
    countK .lineTable
      (runOps (some f) (setLineTable cu none) (CUOp.lineTable :: ops)).2 = 1 := by
  have hstep : (stepOp (some f) (setLineTable cu none) CUOp.lineTable).2 =
      some CUOp.lineTable := by
    simp [stepOp, setLineTable, getLineTable]
  have hflag := stepOp_invoke_flag (some f) (setLineTable cu none)
    CUOp.lineTable CUOp.lineTable hstep
  have hzero := runOps_count_zero (some f) CUOp.lineTable ops
    (stepOp (some f) (setLineTable cu none) CUOp.lineTable).1 hflag
  simp only [runOps, countK_append]
  rw [hstep, hzero]
  simp [countK]

/-- Accessor steps neither change a nonzero language nor invoke
`ParseLanguage` on it. -/
theorem stepOp_language_stable (sf : Option SymbolFileModel) (cu : CompileUnit)
    (op : CUOp) (h : cu.language ≠ 0) :
    (stepOp sf cu op).1.language = cu.language ∧
      (stepOp sf cu op).2 ≠ some CUOp.language := by
  cases op <;>
    simp [stepOp, getLanguage, getLineTable, getDebugMacros, getImportedModules,
          getSupportFiles, setLineTable] <;>
    (repeat' split) <;> simp_all [setLineTable]

/-- A compile unit whose language is already known never invokes
`ParseLanguage`, over any accessor sequence. -/
theorem runOps_language_zero (sf : Option SymbolFileModel) :
    ∀ (ops : List CUOp) (cu : CompileUnit), cu.language ≠ 0 →
      countK .language (runOps sf cu ops).2 = 0 := by
  intro ops
  induction ops with
  | nil => intro cu _; simp [runOps, countK]
  | cons op ops ih =>
    intro cu h
    obtain ⟨hlang, hninv⟩ := stepOp_language_stable sf cu op h
    simp only [runOps, countK_append]
    have h2 : countK CUOp.language (stepOp sf cu op).2.toList = 0 := by
      cases hinv : (stepOp sf cu op).2 with
      | none => simp [countK]
      | some j =>
        have : j ≠ CUOp.language := by intro hj; exact hninv (hj ▸ hinv)
        simp [countK, this]
    rw [h2, ih _ (hlang ▸ h)]

/-- C10.  A compile unit constructed with a known (nonzero) language
returns exactly that language from `GetLanguage`, with no backend
invocation and no state change; moreover no accessor sequence ever
invokes `ParseLanguage` on it. -/
theorem constructed_language_never_parsed (sf : Option SymbolFileModel)
    (id : Nat) (moduleId : Option Nat) (primaryFile : FileSpec) (language : Nat)
    (supportFiles : List FileSpec) (ops : List CUOp)
    (h : language ≠ 0) :
    getLanguage sf (mkCompileUnit id moduleId primaryFile language supportFiles) =
      (mkCompileUnit id moduleId primaryFile language supportFiles, language, false) ∧
    countK .language
      (runOps sf (mkCompileUnit id moduleId primaryFile language supportFiles) ops).2 = 0 := by
  constructor
  · simp [getLanguage, mkCompileUnit, h]
  · exact runOps_language_zero sf ops _ (by simp [mkCompileUnit, h])

/-- Witness for C10 at a concrete compile unit (language 12 = C++) and
a concrete accessor sequence. -/
theorem constructed_language_never_parsed_witness :
    (12 : Nat) ≠ 0 ∧
    getLanguage none (mkCompileUnit 1 (some 1) fMain 12 [fMain]) =
      (mkCompileUnit 1 (some 1) fMain 12 [fMain], 12, false) ∧
    countK .language
      (runOps none (mkCompileUnit 1 (some 1) fMain 12 [fMain])
        [CUOp.language, CUOp.lineTable, CUOp.language]).2 = 0 := by
  refine ⟨by decide, ?_⟩
  have h := constructed_language_never_parsed none 1 (some 1) fMain 12 [fMain]
    [CUOp.language, CUOp.lineTable, CUOp.language] (by decide)
  exact h

/-!
Lemmas about the function registry's sort and enumeration.
-/

/-- Inserting an element permutes consing it on. -/
theorem insertByID_perm (f : Func) : ∀ l : List Func, List.Perm (insertByID f l) (f :: l) := by
  intro l
  induction l with
  | nil => simp [insertByID]
  | cons g gs ih =>
    simp only [insertByID]
    split
    · exact List.Perm.refl _
    · exact (ih.cons g).trans (List.Perm.swap f g gs)

/-- The id-ascending sort permutes its input. -/
theorem sortByID_perm : ∀ l : List Func, List.Perm (sortByID l) l := by
  intro l
  induction l with
  | nil => simp [sortByID]
  | cons f fs ih =>
    simp only [sortByID, List.foldr_cons]
    exact (insertByID_perm f _).trans (ih.cons f)

/-- Insertion preserves sortedness by non-strict id order. -/
theorem pairwise_insertByID (f : Func) : ∀ l : List Func,
    l.Pairwise leById → (insertByID f l).Pairwise leById := by
  intro l
  induction l with
  | nil => intro _; simp [insertByID]
  | cons g gs ih =>
    intro hp
    rw [List.pairwise_cons] at hp
    obtain ⟨hg, hgs⟩ := hp
    simp only [insertByID]
    split
    · rename_i hlt
      refine List.Pairwise.cons ?_ (List.Pairwise.cons hg hgs)
      intro b hb
      rcases List.mem_cons.mp hb with rfl | hb
      · exact Nat.le_of_lt hlt
      · exact Nat.le_trans (Nat.le_of_lt hlt) (hg b hb)
    · rename_i hnlt
      refine List.Pairwise.cons ?_ (ih hgs)
      intro b hb
      have hb2 := (insertByID_perm f gs).mem_iff.mp hb
      rcases List.mem_cons.mp hb2 with rfl | hb3
      · exact Nat.le_of_not_lt hnlt
      · exact hg b hb3

/-- The id-ascending sort produces a list sorted by non-strict id
order. -/
theorem sortByID_sorted_le : ∀ l : List Func, (sortByID l).Pairwise leById := by
  intro l
  induction l with
  | nil => simp [sortByID]
  | cons f fs ih =>
    simp only [sortByID, List.foldr_cons]
    exact pairwise_insertByID f _ ih

/-- With distinct ids, the id-ascending sort is sorted strictly. -/
theorem sortByID_sorted_lt (l : List Func) (hn : (l.map Func.id).Nodup) :
    (sortByID l).Pairwise ltById := by
  have hperm : List.Perm (sortByID l) l := sortByID_perm l
  have hn2 : ((sortByID l).map Func.id).Nodup :=
    ((hperm.map Func.id).nodup_iff).mpr hn
  have hne : (sortByID l).Pairwise (fun a b => a.id ≠ b.id) :=
    List.pairwise_map.mp hn2
  have hle := sortByID_sorted_le l
  exact (hle.and hne).imp (fun h => Nat.lt_of_le_of_ne h.1 h.2)

instance : IsAntisymm Func ltById :=
  ⟨fun _ _ h1 h2 => absurd h1 (Nat.lt_asymm h2)⟩

/-- Two registries holding the same functions (as a multiset of records
with distinct ids) sort identically. -/
theorem sortByID_eq_of_perm (l1 l2 : List Func) (h : List.Perm l1 l2)
    (hn : (l1.map Func.id).Nodup) : sortByID l1 = sortByID l2 := by
  have hn2 : (l2.map Func.id).Nodup := ((h.map Func.id).nodup_iff).mp hn
  have hp : List.Perm (sortByID l1) (sortByID l2) :=
    (sortByID_perm l1).trans (h.trans (sortByID_perm l2).symm)
  exact List.eq_of_perm_of_sorted hp (sortByID_sorted_lt l1 hn)
    (sortByID_sorted_lt l2 hn2)

/-- The visitation loop visits the longest all-false prefix followed by
the first element (if any) on which the visitor returns true. -/
theorem visitUntil_eq (p : Func → Bool) : ∀ l : List Func,
    visitUntil p l =
      l.takeWhile (fun f => !p f) ++ (l.dropWhile (fun f => !p f)).take 1 := by
  intro l
  induction l with
  | nil => simp [visitUntil]
  | cons f fs ih =>
    by_cases h : p f
    · simp [visitUntil, h, List.takeWhile_cons, List.dropWhile_cons]
    · simp [visitUntil, h, List.takeWhile_cons, List.dropWhile_cons, ih]

/-- The visited sequence is a prefix of the input. -/
theorem visitUntil_prefix (p : Func → Bool) (l : List Func) :
    ∃ rest, l = visitUntil p l ++ rest := by
  refine ⟨(l.dropWhile (fun f => !p f)).drop 1, ?_⟩
  rw [visitUntil_eq, List.append_assoc, List.take_append_drop,
    List.takeWhile_append_dropWhile]

/-- Every visited element except possibly the last made the visitor
return false. -/
theorem visitUntil_dropLast (p : Func → Bool) (l : List Func) :
    ∀ f ∈ (visitUntil p l).dropLast, p f = false := by
  intro f hf
  rw [visitUntil_eq] at hf
  have hmem : f ∈ l.takeWhile (fun f => !p f) := by
    cases h1 : l.dropWhile (fun f => !p f) with
    | nil => rw [h1] at hf; simp at hf; exact List.dropLast_subset _ hf
    | cons x xs =>
      rw [h1] at hf
      simp only [List.take_succ_cons, List.take_zero] at hf
      rw [List.dropLast_concat] at hf
      exact hf
  have := List.mem_takeWhile_imp hmem
  simpa using this

/-- C8.  `ForeachFunction` invokes the visitor in strictly ascending
function-id order; the visited sequence is the maximal all-false prefix
of the id-sorted registry values extended by the first function on
which the visitor returns true (early termination); and the sequence is
independent of the order in which `AddFunction` registered the
functions (any registry holding the same functions enumerates
identically).  Ids are assumed distinct, as `AddFunction` keys the
registry by id. -/
theorem foreachFunction_sorted_early_stop (reg : List (Nat × Func)) (p : Func → Bool)
    (hn : ((reg.map Prod.snd).map Func.id).Nodup) :
    (foreachFunction reg p).Pairwise ltById ∧
    foreachFunction reg p =
      (sortByID (reg.map Prod.snd)).takeWhile (fun f => !p f) ++
        ((sortByID (reg.map Prod.snd)).dropWhile (fun f => !p f)).take 1 ∧
    (∀ f ∈ (foreachFunction reg p).dropLast, p f = false) ∧
    (∀ reg2 : List (Nat × Func), List.Perm (reg.map Prod.snd) (reg2.map Prod.snd) →
      foreachFunction reg2 p = foreachFunction reg p) := by
  have hsorted := sortByID_sorted_lt (reg.map Prod.snd) hn
  refine ⟨?_, visitUntil_eq p _, visitUntil_dropLast p _, ?_⟩
  · obtain ⟨rest, hrest⟩ := visitUntil_prefix p (sortByID (reg.map Prod.snd))
    rw [hrest] at hsorted
    exact (List.pairwise_append.mp hsorted).1
  · intro reg2 hperm
    unfold foreachFunction
    rw [sortByID_eq_of_perm _ _ hperm.symm
      (((hperm.map Func.id).nodup_iff).mp hn)]

/-- Witness for C8 on a registry built by registering ids 5, 1, 3 in
that order with an all-false visitor: the hypothesis holds and the
enumeration is strictly ascending by id. -/
theorem foreachFunction_sorted_early_stop_witness :
    ((regDemo.map Prod.snd).map Func.id).Nodup ∧
    (foreachFunction regDemo (fun _ => false)).Pairwise ltById :=
  ⟨by decide,
   (foreachFunction_sorted_early_stop regDemo (fun _ => false) (by decide)).1⟩

/-- Counterexample to C2 as stated.  The registry was built by
registering ids 5, 1, 3 in that order; the first match of the
always-true predicate in id-ascending order would be the function with
id 1 (as the sorted head shows), but `FindFunction` — which performs no
sort (CompileUnit.cpp:98-101), unlike `ForeachFunction`
(CompileUnit.cpp:67-74) — returns the id-5 function, the first in the
registry's internal iteration order. -/
theorem findFunction_not_id_ascending :
    findFunction (some sfDemo) cuReg (fun _ => true) = some fReg5 ∧
    (sortByID (regDemo.map Prod.snd)).head? = some fReg1 ∧
    fReg5.id ≠ fReg1.id :=
  ⟨rfl, rfl, by decide⟩

/-- C2 (amended).  `FindFunction` returns not-found when the module or
symbol file is unavailable; otherwise it has the backend parse all
functions into the registry and returns the first predicate match in
the registry's internal iteration order — without sorting by id. -/
theorem findFunction_registry_order (sf : Option SymbolFileModel)
    (cu : CompileUnit) (p : Func → Bool) :
    (cu.moduleId = none → findFunction sf cu p = none) ∧
    (sf = none → findFunction sf cu p = none) ∧
    (∀ m f, cu.moduleId = some m → sf = some f →
      findFunction sf cu p =
        ((f.parseFunctions.foldl addFunction cu.functionsByUid).find?
          (fun pr => p pr.2)).map Prod.snd) := by
  refine ⟨?_, ?_, ?_⟩
  · intro h; simp [findFunction, h]
  · intro h
    subst h
    cases hm : cu.moduleId <;> simp [findFunction, hm]
  · intro m f hm hf
    subst hf
    simp [findFunction, hm]

/-- Witness for C2 (amended): the demonstration registry with both a
module and a symbol file present. -/
theorem findFunction_registry_order_witness :
    cuReg.moduleId = some 1 ∧
    findFunction (some sfDemo) cuReg (fun _ => true) =
      ((sfDemo.parseFunctions.foldl addFunction cuReg.functionsByUid).find?
        (fun _ => true)).map Prod.snd :=
  ⟨rfl, (findFunction_registry_order (some sfDemo) cuReg (fun _ => true)).2.2
    1 sfDemo rfl rfl⟩

/-!
Theorems about the symbol-context resolver.
-/

/-- C3.  One iteration of the forward line-table scan (the body
`scanLoop` runs for every found entry), with a resolve scope richer
than line-entry-only: if address resolution of the entry's base address
yields this same compile unit, the fully resolved context is the one
appended, with no diagnostic; if it yields no compile unit but a
module, the bare (compile unit + line entry) context is appended and a
diagnostic naming the unresolvable file address is reported to that
module; if it yields a different compile unit, the bare context is
appended silently. -/
theorem scan_step_cases (env : Env) (thisId : Nat) (sc : SymbolContext)
    (entry : LineEntry) (scope : Nat)
    (hscope : scope ≠ eSymbolContextLineEntry) :
    ((env.calcSymbolContext entry.range.base scope).compUnit = some thisId →
      resolveEntryStep env thisId sc entry scope =
        (env.calcSymbolContext entry.range.base scope, none)) ∧
    (∀ m, (env.calcSymbolContext entry.range.base scope).compUnit = none →
      (env.calcSymbolContext entry.range.base scope).module = some m →
      resolveEntryStep env thisId sc entry scope =
        ({ sc with lineEntry := entry }, some (m, entry.range.base))) ∧
    (∀ other, (env.calcSymbolContext entry.range.base scope).compUnit = some other →
      other ≠ thisId →
      resolveEntryStep env thisId sc entry scope =
        ({ sc with lineEntry := entry }, none)) := by
  refine ⟨?_, ?_, ?_⟩
  · intro h
    simp [resolveEntryStep, hscope, h]
  · intro m hcu hm
    simp [resolveEntryStep, hscope, hcu, hm]
  · intro other hcu hne
    simp [resolveEntryStep, hscope, hcu, hne]

/-- Witness for C3 at the diagnostic case: resolution finds a module
(id 9) but no compile unit, so the bare context is appended and the
diagnostic names module 9 and the entry's base address. -/
theorem scan_step_cases_witness :
    (7 : Nat) ≠ eSymbolContextLineEntry ∧
    (envC3.calcSymbolContext eC3.range.base 7).compUnit = none ∧
    (envC3.calcSymbolContext eC3.range.base 7).module = some 9 ∧
    resolveEntryStep envC3 1 scBare eC3 7 =
      ({ scBare with lineEntry := eC3 }, some (9, eC3.range.base)) :=
  ⟨by decide, rfl, rfl,
   (scan_step_cases envC3 1 scBare eC3 7 (by decide)).2.1 9 rfl rfl⟩

/-- C4.  Whenever the inline call-site traversal of a resolve call that
reaches the fallback appends at least one context, the resolver
returns exactly those contexts: the forward line-table scan never runs,
no line-table-entry context follows, and no diagnostic is emitted. -/
theorem inline_match_returns_immediately (env : Env) (cu : CompileUnit)
    (q : SourceLocationSpec) (scope : Nat) (table : List LineEntry)
    (htable : cu.lineTable = some table)
    (hline : q.line.getD INVALID_LINE ≠ INVALID_LINE)
    (hfi : findFileIndexes cu.supportFiles q.fileSpec ≠ [])
    (hinl : inlineContexts env q scope
      (((findLineEntryIndexByFileIndex table 0
          (findFileIndexes cu.supportFiles q.fileSpec) q).map Prod.snd).getD
        invalidLineEntry) ≠ []) :
    resolveSymbolContext env cu q scope =
      (inlineContexts env q scope
        (((findLineEntryIndexByFileIndex table 0
            (findFileIndexes cu.supportFiles q.fileSpec) q).map Prod.snd).getD
          invalidLineEntry), []) := by
  have hci : q.checkInlines = true := by
    by_contra hc
    exact hinl (by simp [inlineContexts, hc])
  simp only [resolveSymbolContext, htable, hci]
  rw [if_neg (by simp), if_neg hline, if_neg hfi, if_neg hinl]

/-- Witness for C4: the demonstration scenario in which the nearest
line-table entry is line 20 but the query (line 15, column 5) matches
an inline call site; resolution returns only the synthesized context
and no diagnostic. -/
theorem inline_match_returns_immediately_witness :
    cuDemo.lineTable = some tableDemo ∧
    q15.line.getD INVALID_LINE ≠ INVALID_LINE ∧
    findFileIndexes cuDemo.supportFiles q15.fileSpec ≠ [] ∧
    resolveSymbolContext envDemo cuDemo q15 255 =
      (inlineContexts envDemo q15 255
        (((findLineEntryIndexByFileIndex tableDemo 0
            (findFileIndexes cuDemo.supportFiles q15.fileSpec) q15).map
          Prod.snd).getD invalidLineEntry), []) := by
  have hinl : inlineContexts envDemo q15 255
      (((findLineEntryIndexByFileIndex tableDemo 0
          (findFileIndexes cuDemo.supportFiles q15.fileSpec) q15).map
        Prod.snd).getD invalidLineEntry) ≠ [] := by
    simp [inlineContexts, q15, envDemo, examineBlock, examineSiblings, matchChild,
          fnDemo, funcBlock, inlChild, dCall, fMain, parentSC, cuDemo, tableDemo,
          declFileAndLineEqual, INVALID_COLUMN, eSymbolContextLineEntry,
          Block.childBlocks, Block.inlineInfo, Block.startAddress, Block.range0,
          INVALID_LINE, invalidLineEntry, findFileIndexes, fileCompatible,
          fileSpecMatch, findLineEntryIndexByFileIndex, searchFrom,
          lineEntryMatches, e10, e20]
  exact ⟨rfl, by decide, by decide,
    inline_match_returns_immediately envDemo cuDemo q15 255 tableDemo rfl
      (by decide) (by decide) hinl⟩

/-- Child-block lists are structurally smaller than their block. -/
theorem sizeOf_childBlocks_lt (b : Block) : sizeOf b.childBlocks < sizeOf b := by
  cases b with
  | mk i a r cs => simp [Block.childBlocks]

/-- With an exact query that carries no column, the call-site check of
`examine_block` rejects every block: its exact-match filter demands the
query's column be present and equal. -/
theorem matchChild_exact_no_column (env : Env) (q : SourceLocationSpec)
    (scope : Nat) (sought : Declaration) (parent child : Block)
    (hex : q.exactMatch = true) (hcol : q.column = none) :
    matchChild env q scope sought parent child = [] := by
  cases hinfo : child.inlineInfo with
  | none => simp [matchChild, hinfo]
  | some d =>
    cases ha : parent.startAddress with
    | none => simp [matchChild, hinfo, ha]
    | some a => simp [matchChild, hinfo, ha, hex, hcol]

/-- With an exact query that carries no column, the whole block-tree
traversal collects nothing. -/
theorem examineSiblings_exact_no_column (env : Env) (q : SourceLocationSpec)
    (scope : Nat) (sought : Declaration) (hex : q.exactMatch = true)
    (hcol : q.column = none) : ∀ (parent : Block) (l : List Block),
    examineSiblings env q scope sought parent l = [] := by
  intro parent l
  generalize hsz : sizeOf l = n
  induction n using Nat.strong_induction_on generalizing parent l with
  | _ n ih =>
    cases l with
    | nil => simp [examineSiblings]
    | cons c rest =>
      have h1 := matchChild_exact_no_column env q scope sought parent c hex hcol
      have h2 := ih (sizeOf c.childBlocks)
        (by rw [← hsz]; simp only [List.cons.sizeOf_spec]
            have := sizeOf_childBlocks_lt c; omega)
        c c.childBlocks rfl
      have h3 := ih (sizeOf rest)
        (by rw [← hsz]; simp only [List.cons.sizeOf_spec]; omega) parent rest rfl
      rw [examineSiblings, h1, h2, h3]
      simp

/-- With an exact query that carries no column, the inline call-site
fallback appends nothing. -/
theorem inlineContexts_exact_no_column (env : Env) (q : SourceLocationSpec)
    (scope : Nat) (entry : LineEntry) (hex : q.exactMatch = true)
    (hcol : q.column = none) : inlineContexts env q scope entry = [] := by
  cases hfn : env.calcFunction entry.range.base with
  | none => simp [inlineContexts, hfn]
  | some fn =>
    simp only [inlineContexts, hfn]
    split
    · exact examineSiblings_exact_no_column env q scope _ hex hcol _ _
    · rfl

/-- C9.  For a resolve call whose query is exact but carries no column,
the inline call-site fallback can never accept a match (its exact-match
filter requires the query's column), so the traversal appends nothing
— shown for every single block and for the whole traversal — and
resolution, when it reaches the fallback, always continues into the
forward line-table scan. -/
theorem exact_without_column_skips_inline (env : Env) (cu : CompileUnit)
    (q : SourceLocationSpec) (scope : Nat) (table : List LineEntry)
    (hex : q.exactMatch = true) (hcol : q.column = none)
    (htable : cu.lineTable = some table)
    (hguard : ¬(fileSpecMatch q.fileSpec cu.primaryFile = false ∧
      q.checkInlines = false))
    (hline : q.line.getD INVALID_LINE ≠ INVALID_LINE)
    (hfi : findFileIndexes cu.supportFiles q.fileSpec ≠ []) :
    (∀ sought parent child,
      matchChild env q scope sought parent child = []) ∧
    (∀ entry, inlineContexts env q scope entry = []) ∧
    resolveSymbolContext env cu q scope =
      forwardScanPart env cu q scope table
        (findFileIndexes cu.supportFiles q.fileSpec)
        { target := none, module := cu.moduleId, compUnit := some cu.id,
          function := none, block := none, symbol := none,
          lineEntry := invalidLineEntry }
        (findLineEntryIndexByFileIndex table 0
          (findFileIndexes cu.supportFiles q.fileSpec) q) := by
  refine ⟨fun sought parent child =>
      matchChild_exact_no_column env q scope sought parent child hex hcol,
    fun entry => inlineContexts_exact_no_column env q scope entry hex hcol, ?_⟩
  simp only [resolveSymbolContext, htable]
  rw [if_neg hguard, if_neg hline, if_neg hfi,
    if_pos (inlineContexts_exact_no_column env q scope _ hex hcol)]

/-- Witness for C9: the demonstration unit queried exactly at line 15
with no column; resolution falls through to the forward scan. -/
theorem exact_without_column_skips_inline_witness :
    q9.exactMatch = true ∧ q9.column = none ∧
    cuDemo.lineTable = some tableDemo ∧
    ¬(fileSpecMatch q9.fileSpec cuDemo.primaryFile = false ∧
      q9.checkInlines = false) ∧
    q9.line.getD INVALID_LINE ≠ INVALID_LINE ∧
    findFileIndexes cuDemo.supportFiles q9.fileSpec ≠ [] ∧
    resolveSymbolContext envDemo cuDemo q9 255 =
      forwardScanPart envDemo cuDemo q9 255 tableDemo
        (findFileIndexes cuDemo.supportFiles q9.fileSpec)
        { target := none, module := cuDemo.moduleId, compUnit := some cuDemo.id,
          function := none, block := none, symbol := none,
          lineEntry := invalidLineEntry }
        (findLineEntryIndexByFileIndex tableDemo 0
          (findFileIndexes cuDemo.supportFiles q9.fileSpec) q9) :=
  ⟨rfl, rfl, rfl, by decide, by decide, by decide,
   (exact_without_column_skips_inline envDemo cuDemo q9 255 tableDemo rfl rfl
      rfl (by decide) (by decide) (by decide)).2.2⟩

/-- Counterexample to C1 as stated.  In the demonstration scenario the
synthesized context's line-entry range is the matched inlined block's
first range (4104..4112), which differs both from the line-entry range
produced by resolving the parent block's start address (4096..4112)
and from the parent block's own first range (4096..4144): the code
overwrites the range from `sibling_block->GetRangeAtIndex(0, _)`
(CompileUnit.cpp:394), so the parent's address range is not kept. -/
theorem call_site_range_not_parent :
    matchChild envDemo q15 255 dCall funcBlock inlChild = [ctxDemo] ∧
    ctxDemo.lineEntry.range = ⟨4104, 8⟩ ∧
    inlChild.range0 = some ⟨4104, 8⟩ ∧
    (envDemo.calcSymbolContext 4096 255).lineEntry.range = ⟨4096, 16⟩ ∧
    funcBlock.range0 = some ⟨4096, 48⟩ ∧
    (⟨4104, 8⟩ : AddrRange) ≠ ⟨4096, 16⟩ ∧
    (⟨4104, 8⟩ : AddrRange) ≠ ⟨4096, 48⟩ := by
  refine ⟨by decide, rfl, rfl, rfl, rfl, by decide, by decide⟩

/-- C1 (amended).  Each synthesized call-site context is built by
resolving the parent block's start address with the caller's resolve
scope, then overriding that context's line entry's line and column
with the call-site declaration's values while keeping the resolved
block/function identity — but with the line entry's address range set
to the matched inlined block's first address range, not the parent's;
when the query requests an exact match, the context is appended only
if the file, line and column of the override all equal the query's
values. -/
theorem inline_context_construction (env : Env) (q : SourceLocationSpec)
    (scope : Nat) (sought : Declaration) (parent child : Block)
    (d : Declaration) (a : Addr) (r : AddrRange)
    (hd : child.inlineInfo = some d)
    (hmatch : declFileAndLineEqual d sought = true)
    (hcol : sought.column = INVALID_COLUMN ∨ sought.column = d.column)
    (ha : parent.startAddress = some a)
    (hr : child.range0 = some r) :
    (q.exactMatch = false →
      matchChild env q scope sought parent child =
        [callSiteContext env scope a d r]) ∧
    (q.exactMatch = true →
      matchChild env q scope sought parent child =
        (if q.fileSpec = (env.calcSymbolContext a scope).lineEntry.file ∧
            q.line = some d.line ∧ q.column = some d.column
         then [callSiteContext env scope a d r] else [])) := by
  constructor
  · intro hex
    simp [matchChild, hd, ha, hr, hex, hmatch, hcol, callSiteContext]
  · intro hex
    simp only [matchChild, hd, ha, hr, hex, callSiteContext]
    rw [if_pos ⟨hmatch, hcol⟩]
    by_cases hc : q.fileSpec = (env.calcSymbolContext a scope).lineEntry.file ∧
        q.line = some d.line ∧ q.column = some d.column
    · simp [hc, hr]
    · simp [hc, hr]

/-- Witness for C1 (amended) at the demonstration scenario's call site
(non-exact query). -/
theorem inline_context_construction_witness :
    inlChild.inlineInfo = some dCall ∧
    declFileAndLineEqual dCall dCall = true ∧
    (dCall.column = INVALID_COLUMN ∨ dCall.column = dCall.column) ∧
    funcBlock.startAddress = some 4096 ∧
    inlChild.range0 = some ⟨4104, 8⟩ ∧
    matchChild envDemo q15 255 dCall funcBlock inlChild =
      [callSiteContext envDemo 255 4096 dCall ⟨4104, 8⟩] :=
  ⟨rfl, by decide, Or.inr rfl, rfl, rfl,
   (inline_context_construction envDemo q15 255 dCall funcBlock inlChild dCall
      4096 ⟨4104, 8⟩ rfl (by decide) (Or.inr rfl) rfl rfl).1 rfl⟩

/-- The sibling loop of `examine_block` collects, in order, the
call-site check of every (parent, child) pair in preorder: each child
first, then its whole subtree, then the next sibling. -/
theorem examineSiblings_eq_preorder (env : Env) (q : SourceLocationSpec)
    (scope : Nat) (sought : Declaration) : ∀ (parent : Block) (l : List Block),
    examineSiblings env q scope sought parent l =
      (preorderSiblings parent l).flatMap
        (fun pc => matchChild env q scope sought pc.1 pc.2) := by
  intro parent l
  generalize hsz : sizeOf l = n
  induction n using Nat.strong_induction_on generalizing parent l with
  | _ n ih =>
    cases l with
    | nil => simp [examineSiblings, preorderSiblings]
    | cons c rest =>
      have h2 := ih (sizeOf c.childBlocks)
        (by rw [← hsz]; simp only [List.cons.sizeOf_spec]
            have := sizeOf_childBlocks_lt c; omega)
        c c.childBlocks rfl
      have h3 := ih (sizeOf rest)
        (by rw [← hsz]; simp only [List.cons.sizeOf_spec]; omega) parent rest rfl
      rw [examineSiblings, preorderSiblings, h2, h3]
      simp [List.append_assoc]

/-- C5 (amended).  The inline call-site traversal visits the found
function's block tree in preorder — each child block's own call-site
check comes before its descendants', and an earlier sibling's entire
subtree comes before the next sibling — and multiple matches are
appended in exactly that preorder (not in a siblings-before-descendants
order). -/
theorem examineBlock_preorder (env : Env) (q : SourceLocationSpec)
    (scope : Nat) (sought : Declaration) (b : Block) :
    examineBlock env q scope sought b =
      (blockPreorder b).flatMap
        (fun pc => matchChild env q scope sought pc.1 pc.2) :=
  examineSiblings_eq_preorder env q scope sought b b.childBlocks

/-- Counterexample to C5 as stated.  In the traversal-order scenario the
root has two children `blkC1` and `blkC2`, both matching, and `blkC1`
has a matching descendant `blkG`.  The traversal appends `blkG`'s
context (range 311..312) before root-level sibling `blkC2`'s context
(range 321..322); a siblings-before-descendants order would append
`blkC2`'s first. -/
theorem examineBlock_not_siblings_first :
    examineBlock env2 q15 255 dCall rootBlock2 =
      [mkCtx ⟨301, 1⟩, mkCtx ⟨311, 1⟩, mkCtx ⟨321, 1⟩] ∧
    mkCtx ⟨311, 1⟩ ≠ mkCtx ⟨321, 1⟩ := by
  constructor
  · simp [examineBlock, examineSiblings, matchChild, env2, rootBlock2, blkC1,
          blkG, blkC2, dCall, q15, mkCtx, fMain, declFileAndLineEqual,
          INVALID_COLUMN, Block.childBlocks, Block.inlineInfo,
          Block.startAddress, Block.range0]
  · decide

end LLDB
